import Mathlib

set_option maxRecDepth 40000

/-!
Verification of the raw PCB binary-decoding pipeline.

The source under verification is a JavaScript code base consisting of
`raw_parser.js` (class `RawPCBParser`: XOR de-obfuscation, file header,
top-level block scan, DES hand-off for DATA blocks) and two revisions of
`part_data_parser.js` (class `PartDataParser`: the nested payload parser for
decrypted DATA blocks).

Modelling conventions:
  - a file buffer is a `List Nat` of byte values (each `< 256` for real inputs);
  - `DataView.getUint8/getUint16/getUint32/getInt32` become `readU8/readU16/
    readU32/readI32 : List Nat -> Nat -> Option _`, little-endian, where `none`
    models the `RangeError` that JavaScript throws on an out-of-bounds read;
  - `new Uint8Array(buffer, byteOffset + offset, n)` becomes `readBytesJS`,
    again with `none` for the thrown `RangeError`;
  - strings are kept as the byte lists consumed by `TextDecoder` (the decoder
    is total and best-effort, so byte-list equality is string equality);
  - JavaScript exceptions propagate as `none` through `Option`; a `try/catch`
    in the source is an explicit `match` on that `Option`;
  - the unbounded `while` loops of the source are modelled with an explicit
    fuel argument; running out of fuel is a distinct outer `none`, so a loop
    result has type `Option (Option _)`: outer `none` = fuel exhausted,
    inner `none` = a JavaScript exception was thrown.  Sufficiency lemmas
    below show the fuel actually used by the top-level entry points is never
    the binding constraint;
  - the DES-ECB decryption performed by the CryptoJS library is an external
    dependency of the source; it enters the model as an explicit function
    parameter `des : List Nat -> Option (List Nat)` (`none` = the library
    threw, or is unavailable).
-/

namespace PCB

/-- `DataView.getUint8(i)`: the byte at index `i`, or a thrown `RangeError`
(`none`) when `i` is out of bounds. -/
def readU8 (b : List Nat) (i : Nat) : Option Nat := b[i]?

/-- `DataView.getUint16(i, true)`: little-endian 16-bit read. -/
def readU16 (b : List Nat) (i : Nat) : Option Nat :=
  match b[i]?, b[i+1]? with
  | some b0, some b1 => some (b0 + 256 * b1)
  | _, _ => none

/-- `DataView.getUint32(i, true)`: little-endian 32-bit unsigned read. -/
def readU32 (b : List Nat) (i : Nat) : Option Nat :=
  match b[i]?, b[i+1]?, b[i+2]?, b[i+3]? with
  | some b0, some b1, some b2, some b3 =>
      some (b0 + 256 * b1 + 65536 * b2 + 16777216 * b3)
  | _, _, _, _ => none

/-- Reinterpret a 32-bit unsigned value as a signed one (two's complement). -/
def toSigned (v : Nat) : Int :=
  if v < 2147483648 then (v : Int) else (v : Int) - 4294967296

/-- `DataView.getInt32(i, true)`: little-endian 32-bit signed read. -/
def readI32 (b : List Nat) (i : Nat) : Option Int :=
  (readU32 b i).map toSigned

/-- `new Uint8Array(buffer, i, n)` (and the body of `readString`): the `n`
bytes starting at index `i`, or a thrown `RangeError` when `i + n` exceeds the
buffer length. -/
def readBytesJS (b : List Nat) (i n : Nat) : Option (List Nat) :=
  if i + n ≤ b.length then some ((b.drop i).take n) else none

/-- The guarded string read pattern `if (size > 0) { ... new Uint8Array(buffer,
i, n) ... }` with the empty string otherwise: reading zero bytes never throws
and consumes nothing. -/
def readStrJS (b : List Nat) (i n : Nat) : Option (List Nat) :=
  if 0 < n then readBytesJS b i n else some []

/-- Little-endian 4-byte encoding of a value (used to build test buffers). -/
def u32le (n : Nat) : List Nat :=
  [n % 256, n / 256 % 256, n / 65536 % 256, n / 16777216 % 256]

end PCB

namespace RawPCBParser

open PCB

/-- The 11-byte XOR boundary marker searched for by `parse`. -/
def marker : List Nat :=
  [0x76, 0x36, 0x76, 0x36, 0x35, 0x35, 0x35, 0x76, 0x36, 0x76, 0x36]

/-- The inner comparison of `findSequence`: `array[i+j] !== sequence[j]` for
all `j` below the sequence length (indices are in range at every call site of
the outer loop, `getD` matches the JavaScript indexed access there). -/
def matchesAt (a seq : List Nat) (i : Nat) : Bool :=
  (List.range seq.length).all (fun j => a.getD (i + j) 0 == seq.getD j 0)

/-- `RawPCBParser.findSequence(array, sequence)` as written: scan
`i = 0 .. array.length - sequence.length` and return the first index where the
whole sequence matches, else `-1`.  (When the sequence is longer than the
array the JavaScript loop bound is negative and the loop body never runs;
`Nat` truncation of `a.length + 1 - seq.length` gives the same empty range.) -/
def findSequence (a seq : List Nat) : Int :=
  match (List.range (a.length + 1 - seq.length)).find? (fun i => matchesAt a seq i) with
  | some i => (i : Int)
  | none => -1

/-- How `parse` actually calls `findSequence`: it passes `this.dataView` (a
`DataView` object) where an array is expected.  A `DataView` has no `length`
property, so `array.length` is `undefined`, the loop bound
`array.length - sequence.length` is `NaN`, the comparison `i <= NaN` is false,
and the loop body never runs: the call returns `-1` for every buffer. -/
def findSequenceOnDataView (_a _seq : List Nat) : Int := -1

/-- The XOR loop of `parse`: `for (i = 0; i < len; i++) b[i] ^= key`, with the
`setUint8` truncation to a byte. -/
def xorApply : List Nat → Nat → Nat → List Nat
  | [], _, _ => []
  | b :: bs, _, 0 => b :: bs
  | b :: bs, key, len + 1 => ((b ^^^ key) % 256) :: xorApply bs key len

/-- The XOR de-obfuscation phase at the top of `parse`: read the key byte at
offset `0x10` (a thrown `RangeError` when the buffer is shorter propagates);
when it is non-zero, XOR the first `xoredDataLength` bytes in place, where
`xoredDataLength` comes from the (always `-1`, see `findSequenceOnDataView`)
sequence search, hence is the whole buffer length. -/
def xorPhase (b : List Nat) : Option (List Nat) :=
  match readU8 b 0x10 with
  | none => none
  | some key =>
      if key ≠ 0 then
        let seqIndex : Int := findSequenceOnDataView b marker
        let xoredDataLength : Nat :=
          if seqIndex ≠ -1 then seqIndex.toNat else b.length
        some (xorApply b key xoredDataLength)
      else some b

end RawPCBParser

/-! The nested payload parser, revision `src/unnamed/part_001` of
`part_data_parser.js`.  This is the revision whose `parse` takes the original
encrypted block size as a second argument `t07blockSize`; the argument is
modelled as an `Option Nat` because the call site in `raw_parser.js` omits it,
making it `undefined` (`none`). -/

namespace PartDataParser

open PCB

/-- One pin record of a `sub_type_09` pin array. -/
structure Pin where
  un1 : Nat
  x : Nat
  y : Nat
  un2 : Nat
  pin_rotation : Nat
  pin_name_size : Nat
  pin_name : List Nat
  width : Nat
  height : Nat
  pin_shape : Nat
  netIndex : Nat
deriving DecidableEq, Repr

/-- The part header produced by `parseHeader` (this revision also records
`part_rotation`). -/
structure Header where
  part_size : Nat
  part_x : Nat
  part_y : Nat
  part_rotation : Nat
  visibility : Nat
  part_group_name_size : Nat
  part_group_name : List Nat
deriving DecidableEq, Repr

/-- One decoded sub-block. -/
inductive SubBlock where
  | sub01 (block_size layer x1 y1 : Nat) (padding_size : Int)
  | sub05 (block_size layer x1 y1 x2 y2 scale : Nat)
  | sub06 (block_size layer x y font_size font_scale visibility label_size : Nat)
      (label : List Nat)
  | sub09 (block_size : Nat) (pins : List Pin)
deriving DecidableEq, Repr

/-- The value returned by `parse`. -/
structure Result where
  header : Header
  sub_blocks : List SubBlock
deriving DecidableEq, Repr

/-- `parseHeader`: part_size at 0, four padding bytes, part_x at 8, part_y at
12, part_rotation at 16, visibility at 20, one padding byte, the name length
at 22 and, when positive, that many name bytes from 26. -/
def parseHeader (b : List Nat) : Option (Header × Nat) := do
  let ps ← readU32 b 0
  let x ← readU32 b 8
  let y ← readU32 b 12
  let rot ← readU32 b 16
  let vis ← readU8 b 20
  let ns ← readU32 b 22
  let name ← readStrJS b 26 ns
  pure (⟨ps, x, y, rot, vis, ns, name⟩, 26 + ns)

/-- The body of the pin `while` loop in `parseSubType09`: five u32 fields, a
length-prefixed pin name, width, height, a one-byte shape, a fixed 23-byte
skip, the net index, and 13 bytes of inter-record padding.  The returned
offset is the cursor after the padding skip. -/
def readPin (b : List Nat) (off : Nat) : Option (Pin × Nat) := do
  let un1 ← readU32 b off
  let x ← readU32 b (off + 4)
  let y ← readU32 b (off + 8)
  let un2 ← readU32 b (off + 12)
  let rot ← readU32 b (off + 16)
  let ns ← readU32 b (off + 20)
  let name ← readStrJS b (off + 24) ns
  let width ← readU32 b (off + 24 + ns)
  let height ← readU32 b (off + 28 + ns)
  let shape ← readU8 b (off + 32 + ns)
  let net ← readU32 b (off + 56 + ns)
  pure (⟨un1, x, y, un2, rot, ns, name, width, height, shape, net⟩, off + 73 + ns)

/-- The guard `this.offset + blockSize <= this.cur_block_size` of the pin
loop.  When `cur_block_size` is `undefined` (the second argument of `parse`
was omitted at the call site) the comparison is false. -/
def pinGuard (off bs : Nat) : Option Nat → Bool
  | none => false
  | some c => decide (off + bs ≤ c)

/-- The pin `while` loop of `parseSubType09`, with fuel.  Outer `none` = fuel
ran out; inner `none` = a read threw. -/
def pinLoopF (b : List Nat) (bs : Nat) (cur : Option Nat) :
    Nat → Nat → List Pin → Option (Option (List Pin × Nat))
  | fuel, off, acc =>
    if pinGuard off bs cur then
      match fuel with
      | 0 => none
      | fuel' + 1 =>
          match readPin b off with
          | none => some none
          | some (p, off') => pinLoopF b bs cur fuel' off' (acc ++ [p])
    else some (some (acc, off))

/-- `parseSubType01`, entered with the cursor just past the tag byte: four
u32 fields, then a skip of `blockSize - 12` bytes.  The skip length may be
negative (JavaScript number arithmetic); the final cursor
`(off + 16) + (blockSize - 12)` is computed over `Int` exactly as the source
does and is never negative since `blockSize ≥ 0`. -/
def parseSubType01 (b : List Nat) (off : Nat) : Option (SubBlock × Nat) := do
  let bs ← readU32 b off
  let layer ← readU32 b (off + 4)
  let x1 ← readU32 b (off + 8)
  let y1 ← readU32 b (off + 12)
  pure (SubBlock.sub01 bs layer x1 y1 ((bs : Int) - 12),
    (((off : Int) + 16) + ((bs : Int) - 12)).toNat)

/-- `parseSubType05`: seven u32 fields then 4 padding bytes. -/
def parseSubType05 (b : List Nat) (off : Nat) : Option (SubBlock × Nat) := do
  let bs ← readU32 b off
  let layer ← readU32 b (off + 4)
  let x1 ← readU32 b (off + 8)
  let y1 ← readU32 b (off + 12)
  let x2 ← readU32 b (off + 16)
  let y2 ← readU32 b (off + 20)
  let scale ← readU32 b (off + 24)
  pure (SubBlock.sub05 bs layer x1 y1 x2 y2 scale, off + 32)

/-- `parseSubType06`: six u32 fields, 4 padding bytes, visibility, 1 padding
byte, a label length and the label bytes. -/
def parseSubType06 (b : List Nat) (off : Nat) : Option (SubBlock × Nat) := do
  let bs ← readU32 b off
  let layer ← readU32 b (off + 4)
  let x ← readU32 b (off + 8)
  let y ← readU32 b (off + 12)
  let fontSize ← readU32 b (off + 16)
  let fontScale ← readU32 b (off + 20)
  let vis ← readU8 b (off + 28)
  let ls ← readU32 b (off + 30)
  let label ← readStrJS b (off + 34) ls
  pure (SubBlock.sub06 bs layer x y fontSize fontScale vis ls label, off + 34 + ls)

/-- `parseSubType09`: the block size of one pin record, then the pin loop
bounded by `cur_block_size`.  `pinLoop_fuel_sufficient` below shows the fuel
`b.length + 8` given to the loop is never exhausted, so collapsing the
fuel-out case into the thrown case is inconsequential. -/
def parseSubType09 (b : List Nat) (cur : Option Nat) (off : Nat) :
    Option (SubBlock × Nat) := do
  let bs ← readU32 b off
  match pinLoopF b bs cur (b.length + 8) (off + 4) [] with
  | none => none
  | some none => none
  | some (some (pins, off')) => pure (SubBlock.sub09 bs pins, off')

/-- The three possible outcomes of one `parseSubBlock` call: a thrown
`RangeError`, a `null` return (unknown tag, or cursor at/past the end), or a
decoded sub-block together with the new cursor. -/
inductive SubStep where
  | thrown
  | unknown
  | step (sb : SubBlock) (off : Nat)
deriving DecidableEq, Repr

/-- `parseSubBlock`: the early `null` when the cursor is at or past the end,
then a one-byte tag dispatch over 0x01/0x05/0x06/0x09, `null` otherwise. -/
def parseSubBlock (b : List Nat) (cur : Option Nat) (off : Nat) : SubStep :=
  if b.length ≤ off then .unknown
  else
    match readU8 b off with
    | none => .thrown
    | some tag =>
        if tag = 0x01 then
          match parseSubType01 b (off + 1) with
          | none => .thrown
          | some (sb, o) => .step sb o
        else if tag = 0x05 then
          match parseSubType05 b (off + 1) with
          | none => .thrown
          | some (sb, o) => .step sb o
        else if tag = 0x06 then
          match parseSubType06 b (off + 1) with
          | none => .thrown
          | some (sb, o) => .step sb o
        else if tag = 0x09 then
          match parseSubType09 b cur (off + 1) with
          | none => .thrown
          | some (sb, o) => .step sb o
        else .unknown

/-- The sub-block `while` loop of `parse`.  The guard is
`offset + pin_block_size < byteLength` where `pin_block_size` is set to `0` in
the constructor and in `init` and never reassigned, so it is
`offset < byteLength`.  A `null` sub-block breaks the loop; a decoded one is
pushed. -/
def subLoopF (b : List Nat) (cur : Option Nat) :
    Nat → Nat → List SubBlock → Option (Option (List SubBlock))
  | fuel, off, acc =>
    if off < b.length then
      match fuel with
      | 0 => none
      | fuel' + 1 =>
          match parseSubBlock b cur off with
          | .thrown => some none
          | .unknown => some (some acc)
          | .step sb off' => subLoopF b cur fuel' off' (acc ++ [sb])
    else some (some acc)

/-- `parse(arrayBuffer, t07blockSize)`: parse the header on the full buffer,
then truncate the working buffer to `4 + part_size` bytes
(`arrayBuffer.slice(0, 4 + partSize)` clamps at the buffer length exactly as
`List.take` does) and run the sub-block loop from the cursor left by the
header, with `cur_block_size = t07blockSize`. -/
def parse (fuel : Nat) (b : List Nat) (cur : Option Nat) : Option (Option Result) :=
  match parseHeader b with
  | none => some none
  | some (hdr, off) =>
      let trimmed := b.take (4 + hdr.part_size)
      match subLoopF trimmed cur fuel off [] with
      | none => none
      | some none => some none
      | some (some sbs) => some (some ⟨hdr, sbs⟩)

end PartDataParser

/-! The nested payload parser, revision `src/part_data_parser.js` of
`part_data_parser.js`.  This revision has no `t07blockSize` parameter and no
`part_rotation` header field, and its `parseSubType09` decodes a single pin
record with a nested pin-sub-type loop instead of a pin array. -/

namespace PartDataParserJs

open PCB

/-- The part header of this revision (the four bytes at 0x10-0x13 are skipped
as padding, there is no rotation field). -/
structure Header where
  part_size : Nat
  part_x : Nat
  part_y : Nat
  visibility : Nat
  part_group_name_size : Nat
  part_group_name : List Nat
deriving DecidableEq, Repr

/-- One decoded pin sub-type record. -/
inductive PinSubPart where
  | st00 (net_index diode_reading_size : Nat) (diode_reading : List Nat)
  | st01 (int1 : Nat) (int2 : Option Nat)
  | st02 (int1 : Nat) (int2 : Option Nat)
  | st03 (int1 : Nat) (int2 : Option Nat)
deriving DecidableEq, Repr

/-- One decoded sub-block of this revision. -/
inductive SubBlock where
  | sub01 (block_size layer x1 y1 : Nat) (padding_size : Int)
  | sub05 (block_size layer x1 y1 x2 y2 scale : Nat)
  | sub06 (block_size layer x y font_size font_scale visibility label_size : Nat)
      (label : List Nat)
  | sub09 (block_size un1 x y un2 un3 pin_name_size : Nat) (pin_name : List Nat)
      (height width : Nat) (sub_parts : List PinSubPart) (un4 : Nat)
deriving DecidableEq, Repr

/-- The value returned by `parse`. -/
structure Result where
  header : Header
  sub_blocks : List SubBlock
deriving DecidableEq, Repr

/-- `parseHeader` of this revision: identical offsets to the other revision,
but the four bytes at 0x10-0x13 are skipped without being read. -/
def parseHeader (b : List Nat) : Option (Header × Nat) := do
  let ps ← readU32 b 0
  let x ← readU32 b 8
  let y ← readU32 b 12
  let vis ← readU8 b 20
  let ns ← readU32 b 22
  let name ← readStrJS b 26 ns
  pure (⟨ps, x, y, vis, ns, name⟩, 26 + ns)

/-- The outcome of one `parsePinSubType` call: a thrown `RangeError`; `null`
(cursor at/past the end, or an unknown pin tag - note the tag byte has
already been consumed in the latter case); or a record and the new cursor. -/
inductive PinSubStep where
  | thrown
  | stop (off : Nat)
  | step (p : PinSubPart) (off : Nat)
deriving DecidableEq, Repr

/-- The common body of `parsePinSubType01/02/03`: one u32, then a second u32
only when the first is positive. -/
def readIntPair (b : List Nat) (off : Nat) : Option ((Nat × Option Nat) × Nat) := do
  let int1 ← readU32 b off
  if 0 < int1 then
    let int2 ← readU32 b (off + 4)
    pure ((int1, some int2), off + 8)
  else
    pure ((int1, none), off + 4)

/-- `parsePinSubType`: early `null` at end of buffer, else a one-byte tag and
a dispatch over 0x00-0x03, returning `null` (after the consumed tag byte) for
anything else. -/
def parsePinSubType (b : List Nat) (off : Nat) : PinSubStep :=
  if b.length ≤ off then .stop off
  else
    match readU8 b off with
    | none => .thrown
    | some tag =>
        if tag = 0x00 then
          match (do
            let net ← readU32 b (off + 1)
            let ds ← readU32 b (off + 5)
            let diode ← readStrJS b (off + 9) ds
            pure (PinSubPart.st00 net ds diode, off + 9 + ds) : Option (PinSubPart × Nat)) with
          | none => .thrown
          | some (p, o) => .step p o
        else if tag = 0x01 then
          match readIntPair b (off + 1) with
          | none => .thrown
          | some ((i1, i2), o) => .step (PinSubPart.st01 i1 i2) o
        else if tag = 0x02 then
          match readIntPair b (off + 1) with
          | none => .thrown
          | some ((i1, i2), o) => .step (PinSubPart.st02 i1 i2) o
        else if tag = 0x03 then
          match readIntPair b (off + 1) with
          | none => .thrown
          | some ((i1, i2), o) => .step (PinSubPart.st03 i1 i2) o
        else .stop (off + 1)

/-- The pin-sub-type `while` loop of `parseSubType09`: iterate while
`offset < blockEnd - 4` (in exact arithmetic, `offset + 4 < blockEnd`),
pushing records and breaking on `null`. -/
def pinSubLoopF (b : List Nat) (blockEnd : Nat) :
    Nat → Nat → List PinSubPart → Option (Option (List PinSubPart × Nat))
  | fuel, off, acc =>
    if off + 4 < blockEnd then
      match fuel with
      | 0 => none
      | fuel' + 1 =>
          match parsePinSubType b off with
          | .thrown => some none
          | .stop o => some (some (acc, o))
          | .step p o => pinSubLoopF b blockEnd fuel' o (acc ++ [p])
    else some (some (acc, off))

/-- `parseSubType01` of this revision (textually identical to the other
revision's). -/
def parseSubType01 (b : List Nat) (off : Nat) : Option (SubBlock × Nat) := do
  let bs ← readU32 b off
  let layer ← readU32 b (off + 4)
  let x1 ← readU32 b (off + 8)
  let y1 ← readU32 b (off + 12)
  pure (SubBlock.sub01 bs layer x1 y1 ((bs : Int) - 12),
    (((off : Int) + 16) + ((bs : Int) - 12)).toNat)

/-- `parseSubType05` of this revision. -/
def parseSubType05 (b : List Nat) (off : Nat) : Option (SubBlock × Nat) := do
  let bs ← readU32 b off
  let layer ← readU32 b (off + 4)
  let x1 ← readU32 b (off + 8)
  let y1 ← readU32 b (off + 12)
  let x2 ← readU32 b (off + 16)
  let y2 ← readU32 b (off + 20)
  let scale ← readU32 b (off + 24)
  pure (SubBlock.sub05 bs layer x1 y1 x2 y2 scale, off + 32)

/-- `parseSubType06` of this revision. -/
def parseSubType06 (b : List Nat) (off : Nat) : Option (SubBlock × Nat) := do
  let bs ← readU32 b off
  let layer ← readU32 b (off + 4)
  let x ← readU32 b (off + 8)
  let y ← readU32 b (off + 12)
  let fontSize ← readU32 b (off + 16)
  let fontScale ← readU32 b (off + 20)
  let vis ← readU8 b (off + 28)
  let ls ← readU32 b (off + 30)
  let label ← readStrJS b (off + 34) ls
  pure (SubBlock.sub06 bs layer x y fontSize fontScale vis ls label, off + 34 + ls)

/-- `parseSubType09` of this revision: `blockEnd = offset + blockSize` after
the size read, fixed fields, a length-prefixed pin name, height and width,
the pin-sub-type loop, and a final u32 `un4`. -/
def parseSubType09 (b : List Nat) (off : Nat) : Option (SubBlock × Nat) := do
  let bs ← readU32 b off
  let un1 ← readU32 b (off + 4)
  let x ← readU32 b (off + 8)
  let y ← readU32 b (off + 12)
  let un2 ← readU32 b (off + 16)
  let un3 ← readU32 b (off + 20)
  let ns ← readU32 b (off + 24)
  let name ← readStrJS b (off + 28) ns
  let height ← readU32 b (off + 28 + ns)
  let width ← readU32 b (off + 32 + ns)
  match pinSubLoopF b (off + 4 + bs) (b.length + 8) (off + 36 + ns) [] with
  | none => none
  | some none => none
  | some (some (subParts, o)) => do
      let un4 ← readU32 b o
      pure (SubBlock.sub09 bs un1 x y un2 un3 ns name height width subParts un4, o + 4)

/-- The three possible outcomes of one `parseSubBlock` call. -/
inductive SubStep where
  | thrown
  | unknown
  | step (sb : SubBlock) (off : Nat)
deriving DecidableEq, Repr

/-- `parseSubBlock` of this revision. -/
def parseSubBlock (b : List Nat) (off : Nat) : SubStep :=
  if b.length ≤ off then .unknown
  else
    match readU8 b off with
    | none => .thrown
    | some tag =>
        if tag = 0x01 then
          match parseSubType01 b (off + 1) with
          | none => .thrown
          | some (sb, o) => .step sb o
        else if tag = 0x05 then
          match parseSubType05 b (off + 1) with
          | none => .thrown
          | some (sb, o) => .step sb o
        else if tag = 0x06 then
          match parseSubType06 b (off + 1) with
          | none => .thrown
          | some (sb, o) => .step sb o
        else if tag = 0x09 then
          match parseSubType09 b (off + 1) with
          | none => .thrown
          | some (sb, o) => .step sb o
        else .unknown

/-- The sub-block `while` loop of `parse` of this revision: plain
`offset < byteLength` guard. -/
def subLoopF (b : List Nat) :
    Nat → Nat → List SubBlock → Option (Option (List SubBlock))
  | fuel, off, acc =>
    if off < b.length then
      match fuel with
      | 0 => none
      | fuel' + 1 =>
          match parseSubBlock b off with
          | .thrown => some none
          | .unknown => some (some acc)
          | .step sb off' => subLoopF b fuel' off' (acc ++ [sb])
    else some (some acc)

/-- `parse(arrayBuffer)` of this revision: header on the full buffer, then the
sub-block loop on the buffer truncated to `4 + part_size` bytes. -/
def parse (fuel : Nat) (b : List Nat) : Option (Option Result) :=
  match parseHeader b with
  | none => some none
  | some (hdr, off) =>
      let trimmed := b.take (4 + hdr.part_size)
      match subLoopF trimmed fuel off [] with
      | none => none
      | some none => some none
      | some (some sbs) => some (some ⟨hdr, sbs⟩)

end PartDataParserJs

/-! The top-level parser `raw_parser.js` (`src/unnamed/part_000`), class
`RawPCBParser`. -/

namespace RawPCBParser

open PCB

/-- One emitted top-level block.  `placeholder` is the empty object literal
returned by `parseType03` and `parseType09`. -/
inductive TLBlock where
  | arc (layer x1 y1 : Nat) (r angle_start angle_end scale unknown_arc : Int)
  | via (x y outer_radius inner_radius : Int)
      (layer_a_index layer_b_index net_index : Nat) (via_text : List Nat)
  | segment (layer : Nat) (x1 y1 x2 y2 scale : Int) (trace_net_index : Nat)
  | text (unknown_1 pos_x pos_y text_size divider empty one text_length : Nat)
      (textBytes : List Nat)
  | data (block_size : Nat) (encrypted_data decrypted_data : List Nat)
      (parsed_data : Option PartDataParser.Result)
  | placeholder
deriving DecidableEq, Repr

/-- The object returned by `parse`. -/
structure ParseOutput where
  main_data_block : List TLBlock
deriving DecidableEq, Repr

/-- `parseFileHeader`: four u32 reads at 0x20/0x24/0x28/0x40; only
`mainDataBlocksSize` (0x40) is kept, and the cursor is set to 0x44.  (The
hex-dump loop at the top only logs and is bounds-guarded.) -/
def parseFileHeader (b : List Nat) : Option Nat := do
  let _headerAddressesSize ← readU32 b 0x20
  let _imageBlockStart ← readU32 b 0x24
  let _netBlockStart ← readU32 b 0x28
  readU32 b 0x40

/-- `parseType01` (ARC), entered just past the tag byte: a u32 block size
(read but not kept) and eight fixed fields. -/
def parseType01 (b : List Nat) (off : Nat) : Option (TLBlock × Nat) := do
  let _bs ← readU32 b off
  let layer ← readU32 b (off + 4)
  let x1 ← readU32 b (off + 8)
  let y1 ← readU32 b (off + 12)
  let r ← readI32 b (off + 16)
  let angleStart ← readI32 b (off + 20)
  let angleEnd ← readI32 b (off + 24)
  let scale ← readI32 b (off + 28)
  let unknownArc ← readI32 b (off + 32)
  pure (TLBlock.arc layer x1 y1 r angleStart angleEnd scale unknownArc, off + 36)

/-- `parseType02` (VIA): a u32 block size (read but not kept), four i32 and
three u32 fields, then a length-prefixed text. -/
def parseType02 (b : List Nat) (off : Nat) : Option (TLBlock × Nat) := do
  let _bs ← readU32 b off
  let x ← readI32 b (off + 4)
  let y ← readI32 b (off + 8)
  let outerRadius ← readI32 b (off + 12)
  let innerRadius ← readI32 b (off + 16)
  let layerAIndex ← readU32 b (off + 20)
  let layerBIndex ← readU32 b (off + 24)
  let netIndex ← readU32 b (off + 28)
  let viaTextLength ← readU32 b (off + 32)
  let viaText ← readBytesJS b (off + 36) viaTextLength
  pure (TLBlock.via x y outerRadius innerRadius layerAIndex layerBIndex netIndex viaText,
    off + 36 + viaTextLength)

/-- `parseType03`: skip `blockSize` bytes and return the empty object. -/
def parseType03 (b : List Nat) (off : Nat) : Option (TLBlock × Nat) := do
  let bs ← readU32 b off
  pure (TLBlock.placeholder, off + 4 + bs)

/-- `parseType05` (SEGMENT). -/
def parseType05 (b : List Nat) (off : Nat) : Option (TLBlock × Nat) := do
  let _bs ← readU32 b off
  let layer ← readU32 b (off + 4)
  let x1 ← readI32 b (off + 8)
  let y1 ← readI32 b (off + 12)
  let x2 ← readI32 b (off + 16)
  let y2 ← readI32 b (off + 20)
  let scale ← readI32 b (off + 24)
  let traceNetIndex ← readU32 b (off + 28)
  pure (TLBlock.segment layer x1 y1 x2 y2 scale traceNetIndex, off + 32)

/-- `parseType06` (TEXT): six u32 fields, one u16, a text length and the text
bytes. -/
def parseType06 (b : List Nat) (off : Nat) : Option (TLBlock × Nat) := do
  let _bs ← readU32 b off
  let unknown1 ← readU32 b (off + 4)
  let posX ← readU32 b (off + 8)
  let posY ← readU32 b (off + 12)
  let textSize ← readU32 b (off + 16)
  let divider ← readU32 b (off + 20)
  let empty ← readU32 b (off + 24)
  let one ← readU16 b (off + 28)
  let textLength ← readU32 b (off + 30)
  let textBytes ← readBytesJS b (off + 34) textLength
  pure (TLBlock.text unknown1 posX posY textSize divider empty one textLength textBytes,
    off + 34 + textLength)

/-- Running the payload parser under the `try/catch` of `parseType07`: the
second argument of `PartDataParser.parse` is omitted at this call site, so
`cur_block_size` is `undefined` (`none`); a thrown error leaves `parsedData`
at `null`.  The fuel `p.length + 8` is never exhausted
(`PartDataParser.parse_fuel_sufficient` below), so collapsing the fuel-out
case into `none` is inconsequential. -/
def tryPartParse (p : List Nat) : Option PartDataParser.Result :=
  match PartDataParser.parse (p.length + 8) p none with
  | some (some r) => some r
  | _ => none

/-- `parseType07` (DATA): read `blockSize` raw ciphertext bytes as a
`Uint8Array` view into the file buffer, decrypt under a `try/catch` that
falls back to `decryptedData = encryptedData`, then run the payload parser
under its own `try/catch`.

On decryption success `decryptedData` is a fresh `Uint8Array`, so
`decryptedData.buffer` is exactly the plaintext.  On decryption failure
`decryptedData` is the `Uint8Array` view itself: `Array.from(decryptedData)`
still yields the ciphertext bytes, but `decryptedData.buffer` is the WHOLE
underlying file buffer, so the payload parser is run on the entire (already
de-obfuscated) file. -/
def parseType07 (des : List Nat → Option (List Nat)) (b : List Nat) (off : Nat) :
    Option (TLBlock × Nat) := do
  let bs ← readU32 b off
  let ct ← readBytesJS b (off + 4) bs
  match des ct with
  | some dec => pure (TLBlock.data bs ct dec (tryPartParse dec), off + 4 + bs)
  | none => pure (TLBlock.data bs ct ct (tryPartParse b), off + 4 + bs)

/-- `parseType09` (TEST_PAD): skip `blockSize` bytes and return the empty
object. -/
def parseType09 (b : List Nat) (off : Nat) : Option (TLBlock × Nat) := do
  let bs ← readU32 b off
  pure (TLBlock.placeholder, off + 4 + bs)

/-- The `while` loop of `parseMainDataBlocks`, with fuel.  Each iteration:
stop when the cursor reaches `endOffset` or the buffer length; treat a zero
u32 as 4 bytes of padding; otherwise read a one-byte tag and dispatch.  The
results of the known handlers are pushed via `if (block) blocks.push(block)`:
every returned object - including the empty `\x7b\x7d` placeholders of 0x03 and
0x09, which are truthy - is pushed; 0x04, 0x08 and unknown tags leave `block`
undefined and push nothing. -/
def mainLoopF (des : List Nat → Option (List Nat)) (b : List Nat) (endOff : Nat)
    (fuel off : Nat) (blocks : List TLBlock) : Option (Option (List TLBlock)) :=
    if off < endOff ∧ off < b.length then
      match fuel with
      | 0 => none
      | fuel' + 1 =>
          match readU32 b off with
          | none => some none
          | some paddingCheck =>
              if paddingCheck = 0 then mainLoopF des b endOff fuel' (off + 4) blocks
              else
                match readU8 b off with
                | none => some none
                | some tag =>
                    if tag = 0x01 then
                      match parseType01 b (off + 1) with
                      | none => some none
                      | some (blk, o) => mainLoopF des b endOff fuel' o (blocks ++ [blk])
                    else if tag = 0x02 then
                      match parseType02 b (off + 1) with
                      | none => some none
                      | some (blk, o) => mainLoopF des b endOff fuel' o (blocks ++ [blk])
                    else if tag = 0x03 then
                      match parseType03 b (off + 1) with
                      | none => some none
                      | some (blk, o) => mainLoopF des b endOff fuel' o (blocks ++ [blk])
                    else if tag = 0x04 then
                      mainLoopF des b endOff fuel' (off + 2) blocks
                    else if tag = 0x05 then
                      match parseType05 b (off + 1) with
                      | none => some none
                      | some (blk, o) => mainLoopF des b endOff fuel' o (blocks ++ [blk])
                    else if tag = 0x06 then
                      match parseType06 b (off + 1) with
                      | none => some none
                      | some (blk, o) => mainLoopF des b endOff fuel' o (blocks ++ [blk])
                    else if tag = 0x07 then
                      match parseType07 des b (off + 1) with
                      | none => some none
                      | some (blk, o) => mainLoopF des b endOff fuel' o (blocks ++ [blk])
                    else if tag = 0x08 then
                      mainLoopF des b endOff fuel' (off + 2) blocks
                    else if tag = 0x09 then
                      match parseType09 b (off + 1) with
                      | none => some none
                      | some (blk, o) => mainLoopF des b endOff fuel' o (blocks ++ [blk])
                    else
                      mainLoopF des b endOff fuel' (off + 1) blocks
    else some (some blocks)

/-- `parseMainDataBlocks`: the loop started at `startOffset = 0x44` with
`endOffset = startOffset + mainDataBlocksSize`. -/
def parseMainDataBlocks (des : List Nat → Option (List Nat)) (b : List Nat)
    (mainDataBlocksSize : Nat) (fuel : Nat) : Option (Option (List TLBlock)) :=
  mainLoopF des b (0x44 + mainDataBlocksSize) fuel 0x44 []

/-- `parse(arrayBuffer)`: the XOR phase (in place, before anything else), then
the file header, then the main block scan.  No step is under a `try/catch`,
so any thrown `RangeError` (inner `none`) propagates to the caller. -/
def parse (fuel : Nat) (des : List Nat → Option (List Nat)) (b : List Nat) :
    Option (Option ParseOutput) :=
  match xorPhase b with
  | none => some none
  | some b' =>
      match parseFileHeader b' with
      | none => some none
      | some ms =>
          match parseMainDataBlocks des b' ms fuel with
          | none => none
          | some none => some none
          | some (some blocks) => some (some ⟨blocks⟩)

end RawPCBParser

/-! Concrete inputs used by the closed theorems and witnesses below. -/

namespace PCBInputs

open PCB RawPCBParser

/-- A well-formed 0x44-byte file header: zero bytes everywhere (in particular
at the XOR-key offset 0x10) except the little-endian `mainDataBlocksSize`
field at 0x40. -/
def mkHeader (ms : Nat) : List Nat := List.replicate 0x40 0 ++ u32le ms

/-- A decryption oracle standing for an always-throwing (or absent) CryptoJS. -/
def desFail : List Nat → Option (List Nat) := fun _ => none

/-- Buffer for C1: a readable header (`mainDataBlocksSize = 16`) followed by a
truncated ARC block, so the scan loop's very first u32 read overruns the
71-byte buffer. -/
def cex1 : List Nat := mkHeader 16 ++ [1, 1, 0]

/-- Buffer for C2: XOR key 7 at offset 0x10, the 11-byte marker at offset 20,
one trailing byte after the marker. -/
def cex2 : List Nat := List.replicate 16 0 ++ [7] ++ [0, 0, 0] ++ marker ++ [0xAA]

/-- Buffer for C4: a header (`mainDataBlocksSize = 9`) and a single tag-0x03
block of declared size 4. -/
def cex4 : List Nat := mkHeader 9 ++ [0x03] ++ u32le 4 ++ [9, 9, 9, 9]

/-- Ciphertext of the single DATA block of `cex5`. -/
def ct5 : List Nat := List.replicate 16 2

/-- Buffer for C5: a header (`mainDataBlocksSize = 21`) and a single tag-0x07
DATA block carrying 16 ciphertext bytes. -/
def cex5 : List Nat := mkHeader 21 ++ [0x07] ++ u32le 16 ++ ct5

/-- The trivial part payload the whole `cex5` buffer decodes to when the
decryption fallback hands the entire file buffer to the payload parser:
`part_size` is the u32 at offset 0, which is 0, so the working buffer is
trimmed to 4 bytes and the sub-block loop never runs. -/
def hdr5 : PartDataParser.Header := ⟨0, 0, 0, 0, 0, 0, []⟩

/-- Decrypted payload used for C3: a 26-byte part header (`part_size = 100`,
empty group name) followed by one pin-array sub-block (tag 0x09, block size
60) and one complete 73-byte pin record whose first byte is 0xAA. -/
def payP : List Nat :=
  u32le 100 ++ u32le 0 ++ u32le 0 ++ u32le 0 ++ u32le 0 ++ [0] ++ [0] ++ u32le 0 ++
    [0x09] ++ u32le 60 ++ [0xAA] ++ List.replicate 3 0 ++ List.replicate 69 0

/-- The header decoded from `payP`. -/
def hdrP : PartDataParser.Header := ⟨100, 0, 0, 0, 0, 0, []⟩

/-- The single pin record decoded from `payP` when the pin loop is bounded by
the original encrypted block size 91. -/
def pinP : PartDataParser.Pin := ⟨170, 0, 0, 0, 0, 0, [], 0, 0, 0, 0⟩

/-- Ciphertext of the single DATA block of `cex3` (91 bytes). -/
def ct3 : List Nat := List.replicate 91 1

/-- A decryption oracle that succeeds and returns `payP`. -/
def des3 : List Nat → Option (List Nat) := fun _ => some payP

/-- Buffer for C3: a header (`mainDataBlocksSize = 96`) and a single tag-0x07
DATA block with `blockSize = 91`. -/
def cex3 : List Nat := mkHeader 96 ++ [0x07] ++ u32le 91 ++ ct3

/-- Buffer for C9, exactly the crafted scenario of the claim: a 0x44-byte
header with `mainDataBlocksSize = 13`, then tag 0x02, `blockSize = 21`,
`x = 100`, `y = 200`, `outer = 50`, `inner = 20`, `layerA = 1`, `layerB = 3`,
`net = 7` and a zero text length. -/
def cex9 : List Nat :=
  mkHeader 13 ++ [0x02] ++ u32le 21 ++ u32le 100 ++ u32le 200 ++ u32le 50 ++
    u32le 20 ++ u32le 1 ++ u32le 3 ++ u32le 7 ++ u32le 0

/-- Payload for the C10 counterexample: a 26-byte header (`part_size = 27`,
so the trimmed buffer is all 31 bytes) followed by a tag-0x09 sub-block whose
4-byte size field ends exactly at the buffer end. -/
def payQ : List Nat :=
  u32le 27 ++ u32le 0 ++ u32le 0 ++ u32le 0 ++ u32le 0 ++ [0] ++ [0] ++ u32le 0 ++
    [0x09] ++ u32le 100

/-- The header decoded from `payQ`. -/
def hdrQ : PartDataParser.Header := ⟨27, 0, 0, 0, 0, 0, []⟩

/-- Payload for the C7 witness: a 26-byte header (`part_size = 40`) and a
tag-0x01 sub-block declaring `block_size = 3`, which makes the padding skip
`3 - 12 = -9` move the cursor backwards into the already-read layer field;
the byte it lands on is 0xFF, an unknown tag, which ends the loop. -/
def payR : List Nat :=
  u32le 40 ++ u32le 0 ++ u32le 0 ++ u32le 0 ++ u32le 0 ++ [0] ++ [0] ++ u32le 0 ++
    [0x01] ++ u32le 3 ++ [0, 0, 0, 0xFF] ++ List.replicate 9 0

/-- An encoded tag-0x03 block: the tag byte, a little-endian size and the
skipped payload. -/
def blk03 (bs : Nat) (p : List Nat) : List Nat := 0x03 :: (u32le bs ++ p)

/-- An encoded tag-0x09 block. -/
def blk09 (bs : Nat) (p : List Nat) : List Nat := 0x09 :: (u32le bs ++ p)

/-- The C4 buffer family: a header whose `mainDataBlocksSize` covers exactly
one 0x03 block and one 0x09 block. -/
def c4buf (bs1 bs2 : Nat) (p1 p2 : List Nat) : List Nat :=
  mkHeader (10 + bs1 + bs2) ++ (blk03 bs1 p1 ++ blk09 bs2 p2)

end PCBInputs

/-! Theorems.  Generic helper lemmas first, then one block of theorems per
claim. -/

namespace PCB

/-- A successful u32 read needs (exactly) four bytes in range. -/
theorem readU32_some_bound {b : List Nat} {i v : Nat} (h : readU32 b i = some v) :
    i + 4 ≤ b.length := by
  unfold readU32 at h
  cases h0 : b[i]? with
  | none => rw [h0] at h; exact absurd h (by simp)
  | some b0 =>
      cases h3 : b[i+3]? with
      | none => rw [h0, h3] at h; cases h1 : b[i+1]? <;> cases h2 : b[i+2]? <;> simp_all
      | some b3 =>
          obtain ⟨hlt, -⟩ := List.getElem?_eq_some_iff.mp h3
          omega

/-- A u32 read in range succeeds. -/
theorem readU32_isSome {b : List Nat} {i : Nat} (h : i + 4 ≤ b.length) :
    ∃ v, readU32 b i = some v := by
  unfold readU32
  have h0 : i < b.length := by omega
  have h1 : i + 1 < b.length := by omega
  have h2 : i + 2 < b.length := by omega
  have h3 : i + 3 < b.length := by omega
  rw [List.getElem?_eq_getElem h0, List.getElem?_eq_getElem h1,
    List.getElem?_eq_getElem h2, List.getElem?_eq_getElem h3]
  exact ⟨_, rfl⟩

/-- A successful byte read is in range. -/
theorem readU8_some_bound {b : List Nat} {i v : Nat} (h : readU8 b i = some v) :
    i < b.length :=
  (List.getElem?_eq_some_iff.mp h).1

/-- Buffers that agree on their first `n` bytes agree at every index below
`n`. -/
theorem getElem?_eq_of_take_eq {b d : List Nat} {n i : Nat}
    (h : b.take n = d.take n) (hi : i < n) : b[i]? = d[i]? := by
  calc b[i]? = (b.take n)[i]? := (List.getElem?_take_of_lt hi).symm
    _ = (d.take n)[i]? := by rw [h]
    _ = d[i]? := List.getElem?_take_of_lt hi

/-- `readU32` only looks at the first `n` bytes when the read ends below
`n`. -/
theorem readU32_eq_of_take_eq {b d : List Nat} {n i : Nat}
    (h : b.take n = d.take n) (hi : i + 4 ≤ n) : readU32 b i = readU32 d i := by
  unfold readU32
  rw [getElem?_eq_of_take_eq h (by omega), getElem?_eq_of_take_eq h (by omega),
    getElem?_eq_of_take_eq h (by omega), getElem?_eq_of_take_eq h (by omega)]

end PCB

namespace RawPCBParser

open PCB PCBInputs

/-- `xorApply` preserves the buffer length. -/
theorem xorApply_length (b : List Nat) (key len : Nat) :
    (xorApply b key len).length = b.length := by
  induction b generalizing len with
  | nil => rfl
  | cons x bs ih =>
      cases len with
      | zero => rfl
      | succ n => simpa [xorApply] using ih n

/-- C8: the XOR de-obfuscation loop is an involution: for any single-byte key
and any buffer of bytes, applying the loop twice over the same length
restores the original bytes (the `k ≠ 0` hypothesis mirrors the claim; the
loop is only reached when the key byte is non-zero). -/
theorem claim8_xor_involutive (b : List Nat) (k len : Nat) (_hk : k ≠ 0)
    (hk256 : k < 256) (hb : ∀ x ∈ b, x < 256) :
    xorApply (xorApply b k len) k len = b := by
  induction b generalizing len with
  | nil => rfl
  | cons x bs ih =>
      cases len with
      | zero => rfl
      | succ n =>
          have hx : x < 256 := hb x (by simp)
          have hxor : x ^^^ k < 256 := by
            have := Nat.xor_lt_two_pow (n := 8) (by simpa using hx) (by simpa using hk256)
            simpa using this
          have htail : ∀ y ∈ bs, y < 256 := fun y hy => hb y (by simp [hy])
          simp only [xorApply]
          rw [Nat.mod_eq_of_lt hxor]
          have hxor2 : (x ^^^ k) ^^^ k = x := Nat.xor_cancel_right k x
          rw [hxor2, Nat.mod_eq_of_lt hx, ih n htail]

/-- C8 witness: the involution at a concrete key, length and buffer. -/
theorem claim8_witness :
    (7 : Nat) ≠ 0 ∧ xorApply (xorApply [1, 2, 3] 7 2) 7 2 = [1, 2, 3] :=
  ⟨by decide, claim8_xor_involutive [1, 2, 3] 7 2 (by decide) (by decide) (by decide)⟩

/-- C2: evaluation of the code at the failing input.  The buffer `cex2` has a
non-zero key byte (7) at offset 0x10 and contains the 11-byte marker at
offset 20 - `findSequence` applied to the byte array would return 20, as the
claim assumes.  But `parse` hands the `DataView` itself to `findSequence`, a
`DataView` has no `length` property, so the search always misses and the XOR
phase processes the whole 32-byte buffer; in particular the bytes from the
marker onward are changed, contradicting the claim that they are left
unchanged. -/
theorem claim2_code_evaluation :
    findSequence cex2 marker = 20 ∧
    xorPhase cex2 = some (cex2.map (fun x => (x ^^^ 7) % 256)) ∧
    (cex2.map (fun x => (x ^^^ 7) % 256)).drop 20 ≠ cex2.drop 20 := by decide

/-- C9: the crafted VIA scenario.  Header with `mainDataBlocksSize = 13`
followed by the literal VIA block; the output is exactly one VIA block with
the literal field values and an empty `via_text`. -/
theorem claim9_via_scenario :
    RawPCBParser.parse 107 desFail cex9 =
      some (some ⟨[TLBlock.via 100 200 50 20 1 3 7 []]⟩) := by decide

/-- C1 counterexample: `cex1` is 71 bytes long - well past the 0x44-byte
header - yet the out-of-bounds u32 read in the first scan iteration
propagates out of `parse` as an exception (`some none`), instead of stopping
the scan and returning the (empty) list of already-decoded blocks. -/
theorem claim1_counterexample :
    0x44 ≤ cex1.length ∧ RawPCBParser.parse 73 desFail cex1 = some none := by decide

/-- C1 as amended: an out-of-bounds cursor read during the top-level block
scan is not contained - `parseMainDataBlocks` runs under no `try/catch`, so
the exception propagates out of the top-level `parse` call (for any fuel and
any decryption oracle), discarding the blocks already decoded. -/
theorem claim1_amended (fuel : Nat) (des : List Nat → Option (List Nat))
    (b b' : List Nat) (ms : Nat)
    (h1 : xorPhase b = some b') (h2 : parseFileHeader b' = some ms)
    (h3 : parseMainDataBlocks des b' ms fuel = some none) :
    RawPCBParser.parse fuel des b = some none := by
  simp [RawPCBParser.parse, h1, h2, h3]

/-- C1 amended witness: the propagation at the concrete buffer `cex1`. -/
theorem claim1_amended_witness :
    (xorPhase cex1 = some cex1 ∧ parseFileHeader cex1 = some 16 ∧
      parseMainDataBlocks desFail cex1 16 73 = some none) ∧
    RawPCBParser.parse 73 desFail cex1 = some none :=
  ⟨⟨by decide, by decide, by decide⟩,
    claim1_amended 73 desFail cex1 cex1 16 (by decide) (by decide) (by decide)⟩

/-- C4 counterexample: a buffer with a single tag-0x03 block.  The handler
returns the empty object `\x7b\x7d`, which is truthy, so
`if (block) blocks.push(block)` pushes it: the output sequence contains the
empty placeholder, contradicting the claim that placeholders are dropped and
the output contains only ARC/VIA/SEGMENT/TEXT/DATA blocks. -/
theorem claim4_counterexample :
    RawPCBParser.parse 82 desFail cex4 = some (some ⟨[TLBlock.placeholder]⟩) := by decide

/-- C5 counterexample: the DATA block of `cex5` fails to decrypt
(`desFail`), and the fallback hands `decryptedData.buffer` - the whole file
buffer - to the payload parser, which succeeds on it; `parsed_data` is
therefore present (`some`), contradicting the claim that it is left absent
whenever decryption fails. -/
theorem claim5_counterexample :
    desFail ct5 = none ∧
    RawPCBParser.parse 91 desFail cex5 =
      some (some ⟨[TLBlock.data 16 ct5 ct5 (some ⟨hdr5, []⟩)]⟩) := by decide

/-- C3 counterexample: `cex3` carries one DATA block of size 91 whose
payload `payP` decrypts successfully (`des3`).  `parseType07` invokes the
payload parser WITHOUT the block size (the second argument is omitted at the
call site), so the pin loop guard compares against `undefined` and the
decoded pin array is empty - although, had the parser been seeded with the
original block size 91 as the claim states, the same payload decodes one pin
(and indeed `cursor + blockSize = 31 + 60 ≤ 91` holds on entry). -/
theorem claim3_counterexample :
    RawPCBParser.parse 166 des3 cex3 =
      some (some ⟨[TLBlock.data 91 ct3 payP
        (some ⟨hdrP, [PartDataParser.SubBlock.sub09 60 []]⟩)]⟩) ∧
    PartDataParser.parse 112 payP (some 91) =
      some (some ⟨hdrP, [PartDataParser.SubBlock.sub09 60 [pinP]]⟩) ∧
    31 + 60 ≤ 91 := by decide

/-- C10 counterexample: on the 31-byte payload `payQ` the two
`PartDataParser` revisions disagree: the `src/unnamed/part_001` revision
returns a result (a pin array with no pins), while the
`src/part_data_parser.js` revision throws an out-of-bounds `RangeError`
(`some none`) reading the first pin field. -/
theorem claim10_counterexample :
    PartDataParser.parse 39 payQ none =
      some (some ⟨hdrQ, [PartDataParser.SubBlock.sub09 100 []]⟩) ∧
    PartDataParserJs.parse 39 payQ = some none := by decide

end RawPCBParser

namespace PartDataParser

open PCB PCBInputs

/-- A successful pin read starts in bounds (its first u32 is in range) and
advances the cursor by at least the 73 fixed bytes of a pin record. -/
theorem readPin_bound {b : List Nat} {off : Nat} {p : Pin} {off' : Nat}
    (h : readPin b off = some (p, off')) :
    off + 4 ≤ b.length ∧ off + 73 ≤ off' := by
  simp only [readPin, bind, Option.bind_eq_some] at h
  obtain ⟨un1, h1, h⟩ := h
  obtain ⟨x, hx, h⟩ := h
  obtain ⟨y, hy, h⟩ := h
  obtain ⟨un2, hun2, h⟩ := h
  obtain ⟨rot, hrot, h⟩ := h
  obtain ⟨ns, hns, h⟩ := h
  obtain ⟨name, hname, h⟩ := h
  obtain ⟨w, hw, h⟩ := h
  obtain ⟨hgt, hh, h⟩ := h
  obtain ⟨sh, hsh, h⟩ := h
  obtain ⟨net, hnet, h⟩ := h
  simp only [pure, Option.some.injEq, Prod.mk.injEq] at h
  exact ⟨readU32_some_bound h1, by omega⟩

/-- The pin loop never returns a cursor below its starting point. -/
theorem pinLoopF_off_ge {b : List Nat} {bs : Nat} {cur : Option Nat} :
    ∀ {fuel off acc pins o},
      pinLoopF b bs cur fuel off acc = some (some (pins, o)) → off ≤ o := by
  intro fuel
  induction fuel with
  | zero =>
      intro off acc pins o h
      rw [pinLoopF] at h
      split at h
      · exact absurd h (by simp)
      · simp only [Option.some.injEq, Prod.mk.injEq] at h; omega
  | succ fuel ih =>
      intro off acc pins o h
      rw [pinLoopF] at h
      split at h
      · cases hrp : readPin b off with
        | none => rw [hrp] at h; exact absurd h (by simp)
        | some po =>
            obtain ⟨p, off2⟩ := po
            rw [hrp] at h
            have h73 := (readPin_bound hrp).2
            have := ih h
            omega
      · simp only [Option.some.injEq, Prod.mk.injEq] at h; omega

/-- Fuel sufficiency for the pin loop: any fuel at least
`b.length + 4 - off` (and at least 1) is enough for the loop to reach a
result - each successful pin read starts in bounds and advances the cursor by
at least 73, and a read past the end terminates the loop with a thrown
error. -/
theorem pinLoopF_isSome {b : List Nat} {bs : Nat} {cur : Option Nat} :
    ∀ {fuel off : Nat} (acc : List Pin),
      b.length + 4 ≤ fuel + off → 1 ≤ fuel →
      (pinLoopF b bs cur fuel off acc).isSome := by
  intro fuel
  induction fuel with
  | zero => intro off acc h h1; omega
  | succ fuel ih =>
      intro off acc h _
      rw [pinLoopF]
      split
      · cases hrp : readPin b off with
        | none => simp
        | some po =>
            obtain ⟨p, off2⟩ := po
            obtain ⟨hin, h73⟩ := readPin_bound hrp
            exact ih (acc ++ [p]) (by omega) (by omega)
      · simp

/-- `parseSubType01` advances the cursor by at least 4: the final cursor is
`(off + 16) + (blockSize - 12) = off + 4 + blockSize` exactly (over `Int`,
with `blockSize ≥ 0`). -/
theorem parseSubType01_bound {b : List Nat} {off : Nat} {sb : SubBlock} {o : Nat}
    (h : parseSubType01 b off = some (sb, o)) : off + 4 ≤ o := by
  simp only [parseSubType01, bind, Option.bind_eq_some] at h
  obtain ⟨bs, hbs, h⟩ := h
  obtain ⟨layer, hl, h⟩ := h
  obtain ⟨x1, hx, h⟩ := h
  obtain ⟨y1, hy, h⟩ := h
  simp only [pure, Option.some.injEq, Prod.mk.injEq] at h
  have ho : o = (((off : Int) + 16) + ((bs : Int) - 12)).toNat := h.2.symm
  omega

/-- `parseSubType05` advances the cursor by 32. -/
theorem parseSubType05_bound {b : List Nat} {off : Nat} {sb : SubBlock} {o : Nat}
    (h : parseSubType05 b off = some (sb, o)) : off + 32 ≤ o := by
  simp only [parseSubType05, bind, Option.bind_eq_some] at h
  obtain ⟨bs, hbs, h⟩ := h
  obtain ⟨layer, hl, h⟩ := h
  obtain ⟨x1, hx1, h⟩ := h
  obtain ⟨y1, hy1, h⟩ := h
  obtain ⟨x2, hx2, h⟩ := h
  obtain ⟨y2, hy2, h⟩ := h
  obtain ⟨sc, hsc, h⟩ := h
  simp only [pure, Option.some.injEq, Prod.mk.injEq] at h
  omega

/-- `parseSubType06` advances the cursor by at least 34. -/
theorem parseSubType06_bound {b : List Nat} {off : Nat} {sb : SubBlock} {o : Nat}
    (h : parseSubType06 b off = some (sb, o)) : off + 34 ≤ o := by
  simp only [parseSubType06, bind, Option.bind_eq_some] at h
  obtain ⟨bs, hbs, h⟩ := h
  obtain ⟨layer, hl, h⟩ := h
  obtain ⟨x, hx, h⟩ := h
  obtain ⟨y, hy, h⟩ := h
  obtain ⟨fs, hfs, h⟩ := h
  obtain ⟨fsc, hfsc, h⟩ := h
  obtain ⟨vis, hvis, h⟩ := h
  obtain ⟨ls, hls, h⟩ := h
  obtain ⟨lab, hlab, h⟩ := h
  simp only [pure, Option.some.injEq, Prod.mk.injEq] at h
  omega

/-- `parseSubType09` advances the cursor by at least 4 (the size field; the
pin loop never moves the cursor backwards). -/
theorem parseSubType09_bound {b : List Nat} {cur : Option Nat} {off : Nat}
    {sb : SubBlock} {o : Nat}
    (h : parseSubType09 b cur off = some (sb, o)) : off + 4 ≤ o := by
  simp only [parseSubType09, bind, Option.bind_eq_some] at h
  obtain ⟨bs, hbs, h⟩ := h
  cases hpl : pinLoopF b bs cur (b.length + 8) (off + 4) [] with
  | none => rw [hpl] at h; exact absurd h (by simp)
  | some inner =>
      rw [hpl] at h
      cases inner with
      | none => exact absurd h (by simp)
      | some po =>
          obtain ⟨pins, o2⟩ := po
          have := pinLoopF_off_ge hpl
          simp only [pure, Option.some.injEq, Prod.mk.injEq] at h
          omega

/-- Every decoded sub-block strictly advances the cursor. -/
theorem parseSubBlock_step_lt {b : List Nat} {cur : Option Nat} {off : Nat}
    {sb : SubBlock} {off' : Nat}
    (h : parseSubBlock b cur off = .step sb off') : off < off' := by
  unfold parseSubBlock at h
  split at h
  · simp at h
  · split at h
    · simp at h
    · rename_i tag htag
      split at h
      · split at h
        · simp at h
        · rename_i sb2 o h01
          cases h
          have := parseSubType01_bound h01
          omega
      · split at h
        · split at h
          · simp at h
          · rename_i sb2 o h05
            cases h
            have := parseSubType05_bound h05
            omega
        · split at h
          · split at h
            · simp at h
            · rename_i sb2 o h06
              cases h
              have := parseSubType06_bound h06
              omega
          · split at h
            · split at h
              · simp at h
              · rename_i sb2 o h09
                cases h
                have := parseSubType09_bound h09
                omega
            · simp at h

/-- Fuel sufficiency for the sub-block loop: any fuel at least
`b.length - off` reaches a result, because the guard keeps the cursor below
the buffer length and every iteration strictly advances it. -/
theorem subLoopF_isSome {b : List Nat} {cur : Option Nat} :
    ∀ {fuel off : Nat} (acc : List SubBlock),
      b.length ≤ fuel + off → (subLoopF b cur fuel off acc).isSome := by
  intro fuel
  induction fuel with
  | zero =>
      intro off acc h
      rw [subLoopF]
      split
      · omega
      · simp
  | succ fuel ih =>
      intro off acc h
      rw [subLoopF]
      split
      · cases hsb : parseSubBlock b cur off with
        | thrown => simp
        | unknown => simp
        | step sb off2 =>
            have := parseSubBlock_step_lt hsb
            exact ih (acc ++ [sb]) (by omega)
      · simp

/-- C7: `PartDataParser.parse` terminates on every finite decrypted buffer:
any fuel at least the buffer length is enough for the whole computation
(header, truncation, sub-block loop, nested pin loops) to reach a result -
even when a sub-block of type 0x01 declares a `block_size` below 12, whose
negative padding length moves the cursor backwards (each such iteration still
has a net cursor advance of `block_size + 5 ≥ 5`). -/
theorem claim7_parse_terminates (b : List Nat) (cur : Option Nat) (fuel : Nat)
    (h : b.length ≤ fuel) : (PartDataParser.parse fuel b cur).isSome := by
  cases hh : parseHeader b with
  | none => simp [PartDataParser.parse, hh]
  | some ho =>
      obtain ⟨hdr, off⟩ := ho
      have hlen : (b.take (4 + hdr.part_size)).length ≤ b.length := by
        simp [List.length_take]
      cases hl : subLoopF (b.take (4 + hdr.part_size)) cur fuel off [] with
      | none =>
          have hs : (subLoopF (b.take (4 + hdr.part_size)) cur fuel off []).isSome :=
            subLoopF_isSome [] (by omega)
          rw [hl] at hs
          exact absurd hs (by simp)
      | some inner => cases inner <;> simp [PartDataParser.parse, hh, hl]

/-- C7 witness: termination on the concrete payload `payR`, whose single
0x01 sub-block declares `block_size = 3 < 12` (padding length `-9`, cursor
moved backwards into the layer field). -/
theorem claim7_witness :
    payR.length ≤ 52 ∧ (PartDataParser.parse 52 payR none).isSome :=
  ⟨by decide, claim7_parse_terminates payR none 52 (by decide)⟩

end PartDataParser

namespace PartDataParser

open PCB PCBInputs

/-- With `cur_block_size` undefined the pin loop guard is false at once. -/
theorem pinLoopF_none (b : List Nat) (bs fuel off : Nat) (acc : List Pin) :
    pinLoopF b bs none fuel off acc = some (some (acc, off)) := by
  rw [pinLoopF.eq_def]
  simp [pinGuard]

/-- With `cur_block_size` undefined, a pin-array sub-block decodes its size
field and no pins. -/
theorem parseSubType09_none (b : List Nat) (off : Nat) :
    parseSubType09 b none off =
      (readU32 b off).map (fun bs => (SubBlock.sub09 bs [], off + 4)) := by
  unfold parseSubType09
  cases readU32 b off <;> simp [pinLoopF_none, bind]

/-- `parseSubType01` only produces `sub01` sub-blocks. -/
theorem parseSubType01_shape {b : List Nat} {off : Nat} {sb : SubBlock} {o : Nat}
    (h : parseSubType01 b off = some (sb, o)) :
    ∃ a l x y, sb = SubBlock.sub01 a l x y ((a : Int) - 12) := by
  simp only [parseSubType01, bind, Option.bind_eq_some] at h
  obtain ⟨bs, hbs, h⟩ := h
  obtain ⟨layer, hl, h⟩ := h
  obtain ⟨x1, hx, h⟩ := h
  obtain ⟨y1, hy, h⟩ := h
  simp only [pure, Option.some.injEq, Prod.mk.injEq] at h
  exact ⟨bs, layer, x1, y1, h.1.symm⟩

/-- `parseSubType05` only produces `sub05` sub-blocks. -/
theorem parseSubType05_shape {b : List Nat} {off : Nat} {sb : SubBlock} {o : Nat}
    (h : parseSubType05 b off = some (sb, o)) :
    ∃ a l x1 y1 x2 y2 s, sb = SubBlock.sub05 a l x1 y1 x2 y2 s := by
  simp only [parseSubType05, bind, Option.bind_eq_some] at h
  obtain ⟨bs, hbs, h⟩ := h
  obtain ⟨layer, hl, h⟩ := h
  obtain ⟨x1, hx1, h⟩ := h
  obtain ⟨y1, hy1, h⟩ := h
  obtain ⟨x2, hx2, h⟩ := h
  obtain ⟨y2, hy2, h⟩ := h
  obtain ⟨sc, hsc, h⟩ := h
  simp only [pure, Option.some.injEq, Prod.mk.injEq] at h
  exact ⟨bs, layer, x1, y1, x2, y2, sc, h.1.symm⟩

/-- `parseSubType06` only produces `sub06` sub-blocks. -/
theorem parseSubType06_shape {b : List Nat} {off : Nat} {sb : SubBlock} {o : Nat}
    (h : parseSubType06 b off = some (sb, o)) :
    ∃ a l x y fs fsc v ls lab, sb = SubBlock.sub06 a l x y fs fsc v ls lab := by
  simp only [parseSubType06, bind, Option.bind_eq_some] at h
  obtain ⟨bs, hbs, h⟩ := h
  obtain ⟨layer, hl, h⟩ := h
  obtain ⟨x, hx, h⟩ := h
  obtain ⟨y, hy, h⟩ := h
  obtain ⟨fs, hfs, h⟩ := h
  obtain ⟨fsc, hfsc, h⟩ := h
  obtain ⟨vis, hvis, h⟩ := h
  obtain ⟨ls, hls, h⟩ := h
  obtain ⟨lab, hlab, h⟩ := h
  simp only [pure, Option.some.injEq, Prod.mk.injEq] at h
  exact ⟨bs, layer, x, y, fs, fsc, vis, ls, lab, h.1.symm⟩

/-- With `cur_block_size` undefined, any decoded pin-array sub-block carries
an empty pin list. -/
theorem parseSubBlock_none_sub09 {b : List Nat} {off : Nat} {bs : Nat}
    {pins : List Pin} {o : Nat}
    (h : parseSubBlock b none off = .step (SubBlock.sub09 bs pins) o) :
    pins = [] := by
  unfold parseSubBlock at h
  split at h
  · simp at h
  · split at h
    · simp at h
    · rename_i tag htag
      split at h
      · split at h
        · simp at h
        · rename_i sb2 o2 h01
          obtain ⟨a, l, x, y, hsb⟩ := parseSubType01_shape h01
          subst hsb
          simp at h
      · split at h
        · split at h
          · simp at h
          · rename_i sb2 o2 h05
            obtain ⟨a, l, x1, y1, x2, y2, s, hsb⟩ := parseSubType05_shape h05
            subst hsb
            simp at h
        · split at h
          · split at h
            · simp at h
            · rename_i sb2 o2 h06
              obtain ⟨a, l, x, y, fs, fsc, v, ls, lab, hsb⟩ := parseSubType06_shape h06
              subst hsb
              simp at h
          · split at h
            · split at h
              · simp at h
              · rename_i sb2 o2 h09
                rw [parseSubType09_none] at h09
                cases hread : readU32 b (off + 1) with
                | none => rw [hread] at h09; exact absurd h09 (by simp)
                | some v =>
                    rw [hread] at h09
                    simp at h09
                    simp_all
            · simp at h

/-- With `cur_block_size` undefined, every pin-array sub-block accumulated by
the sub-block loop carries an empty pin list. -/
theorem subLoopF_none_pins {b : List Nat} :
    ∀ {fuel off : Nat} {acc sbs : List SubBlock},
      (∀ bs pins, SubBlock.sub09 bs pins ∈ acc → pins = []) →
      subLoopF b none fuel off acc = some (some sbs) →
      ∀ bs pins, SubBlock.sub09 bs pins ∈ sbs → pins = [] := by
  intro fuel
  induction fuel with
  | zero =>
      intro off acc sbs hacc h
      rw [subLoopF] at h
      split at h
      · simp at h
      · simp only [Option.some.injEq] at h
        subst h
        exact hacc
  | succ fuel ih =>
      intro off acc sbs hacc h
      rw [subLoopF] at h
      split at h
      · cases hsb : parseSubBlock b none off with
        | thrown => rw [hsb] at h; simp at h
        | unknown =>
            rw [hsb] at h
            simp only [Option.some.injEq] at h
            subst h
            exact hacc
        | step sb off2 =>
            rw [hsb] at h
            refine ih ?_ h
            intro bs pins hmem
            rcases List.mem_append.mp hmem with hl | hr
            · exact hacc bs pins hl
            · have hsb9 : SubBlock.sub09 bs pins = sb := by simpa using hr
              rw [← hsb9] at hsb
              exact parseSubBlock_none_sub09 hsb
      · simp only [Option.some.injEq] at h
        subst h
        exact hacc

/-- Any result of `parse` invoked with an undefined `t07blockSize` has only
empty pin arrays among its sub-blocks. -/
theorem parse_none_pins {q : List Nat} {fuel : Nat} {r : Result}
    (hp : PartDataParser.parse fuel q none = some (some r)) :
    ∀ bs pins, SubBlock.sub09 bs pins ∈ r.sub_blocks → pins = [] := by
  unfold PartDataParser.parse at hp
  split at hp
  · simp at hp
  · rename_i hdr off hh
    dsimp only at hp
    split at hp
    · simp at hp
    · simp at hp
    · rename_i sbs hl
      simp only [Option.some.injEq] at hp
      subst hp
      exact subLoopF_none_pins (by simp) hl

end PartDataParser

namespace RawPCBParser

open PCB PCBInputs PartDataParser

/-- Any part payload decoded through `tryPartParse` (the call site that omits
`t07blockSize`) has only empty pin arrays. -/
theorem tryPartParse_pins {q : List Nat} {pr : PartDataParser.Result}
    (h : tryPartParse q = some pr)
    {bs : Nat} {pins : List Pin}
    (hmem : SubBlock.sub09 bs pins ∈ pr.sub_blocks) : pins = [] := by
  unfold tryPartParse at h
  split at h
  · rename_i r heq
    simp only [Option.some.injEq] at h
    subst h
    exact parse_none_pins heq bs pins hmem
  · simp at h

/-- C3 as amended: `parseType07` invokes the payload parser WITHOUT the
original encrypted block size (the call site omits the second argument, so
`cur_block_size` is `undefined`), and consequently every pin-array sub-block
(sub-tag 0x09) of a DATA block's `parsed_data` decodes zero Pin records -
for a successfully decrypted payload just as for the fallback. -/
theorem claim3_amended (des : List Nat → Option (List Nat)) (b : List Nat)
    (off bsz : Nat) (ct dec : List Nat) (pr : PartDataParser.Result) (o : Nat)
    (h : parseType07 des b off = some (TLBlock.data bsz ct dec (some pr), o))
    (bs : Nat) (pins : List Pin)
    (hmem : SubBlock.sub09 bs pins ∈ pr.sub_blocks) :
    pins = [] := by
  simp only [parseType07, bind, Option.bind_eq_some] at h
  obtain ⟨bs0, hbs0, h⟩ := h
  obtain ⟨ct0, hct0, h⟩ := h
  cases hdes : des ct0 with
  | some dec0 =>
      rw [hdes] at h
      simp only [pure, Option.some.injEq, Prod.mk.injEq, TLBlock.data.injEq] at h
      obtain ⟨⟨-, -, -, hparsed⟩, -⟩ := h
      exact tryPartParse_pins hparsed hmem
  | none =>
      rw [hdes] at h
      simp only [pure, Option.some.injEq, Prod.mk.injEq, TLBlock.data.injEq] at h
      obtain ⟨⟨-, -, -, hparsed⟩, -⟩ := h
      exact tryPartParse_pins hparsed hmem

/-- C3 amended witness: the DATA block of `cex3` decrypts to `payP`, whose
pin-array sub-block indeed decodes zero pins. -/
theorem claim3_amended_witness :
    parseType07 des3 cex3 0x45 =
      some (TLBlock.data 91 ct3 payP
        (some ⟨hdrP, [SubBlock.sub09 60 []]⟩), 0x45 + 4 + 91) ∧
    SubBlock.sub09 60 [] ∈ [SubBlock.sub09 60 []] ∧
    ([] : List Pin) = [] :=
  ⟨by decide, by decide,
    claim3_amended des3 cex3 0x45 91 ct3 payP ⟨hdrP, [SubBlock.sub09 60 []]⟩
      (0x45 + 4 + 91) (by decide) 60 [] (by decide)⟩

/-- C5 as amended: when decryption of a DATA block fails, the entry's
`decrypted_data` is the raw ciphertext and the handler returns normally (the
outer scan continues), but the payload parser is still attempted - on the
whole underlying file buffer - and `parsed_data` is whatever that attempt
yields (`none` only when it throws). -/
theorem claim5_amended (des : List Nat → Option (List Nat)) (b : List Nat)
    (off bs : Nat) (ct : List Nat)
    (hbs : readU32 b off = some bs) (hct : readBytesJS b (off + 4) bs = some ct)
    (hdes : des ct = none) :
    parseType07 des b off =
      some (TLBlock.data bs ct ct (tryPartParse b), off + 4 + bs) := by
  simp [parseType07, hbs, hct, hdes, bind]

/-- C5 amended witness: the fallback at the concrete buffer `cex5`, whose
whole-file parse attempt succeeds, leaving `parsed_data` present. -/
theorem claim5_amended_witness :
    (readU32 cex5 0x45 = some 16 ∧ readBytesJS cex5 (0x45 + 4) 16 = some ct5 ∧
      desFail ct5 = none) ∧
    parseType07 desFail cex5 0x45 =
      some (TLBlock.data 16 ct5 ct5 (tryPartParse cex5), 0x45 + 4 + 16) ∧
    tryPartParse cex5 = some ⟨hdr5, []⟩ :=
  ⟨⟨by decide, by decide, by decide⟩,
    claim5_amended desFail cex5 0x45 16 ct5 (by decide) (by decide) (by decide),
    by decide⟩

end RawPCBParser
namespace PartDataParser

open PCB

/-- C10 as amended: the two `PartDataParser` implementations are not
equivalent (see the counterexample), but they do parse the part header
equivalently: for every buffer they succeed or throw together, and on
success they agree on the common fields `part_size`, `part_x`, `part_y`,
`visibility`, `part_group_name_size`, `part_group_name` and on the cursor
left for the sub-block phase (the `src/unnamed/part_001` revision
additionally records `part_rotation` from the four bytes the other revision
skips as padding). -/
theorem claim10_amended (b : List Nat) :
    (PartDataParser.parseHeader b).map
        (fun po => (po.1.part_size, po.1.part_x, po.1.part_y, po.1.visibility,
          po.1.part_group_name_size, po.1.part_group_name, po.2))
      = (PartDataParserJs.parseHeader b).map
        (fun po => (po.1.part_size, po.1.part_x, po.1.part_y, po.1.visibility,
          po.1.part_group_name_size, po.1.part_group_name, po.2)) := by
  unfold PartDataParser.parseHeader PartDataParserJs.parseHeader
  cases h0 : readU32 b 0 with
  | none => simp [bind]
  | some ps =>
  cases h8 : readU32 b 8 with
  | none => simp [bind]
  | some x =>
  cases h12 : readU32 b 12 with
  | none => simp [bind]
  | some y =>
  cases h20 : readU8 b 20 with
  | none =>
      cases h16 : readU32 b 16 with
      | none => simp [bind, h16, h20]
      | some rot => simp [bind, h16, h20]
  | some vis =>
      have hrot : ∃ rot, readU32 b 16 = some rot :=
        readU32_isSome (by have := readU8_some_bound h20; omega)
      obtain ⟨rot, h16⟩ := hrot
      cases h22 : readU32 b 22 with
      | none => simp [bind, h16, h20, h22]
      | some ns =>
          cases h26 : readStrJS b 26 ns with
          | none => simp [bind, h16, h20, h22, h26]
          | some name => simp [bind, h16, h20, h22, h26]

end PartDataParser

namespace PartDataParser

open PCB PCBInputs

/-- Shape of a successful header parse: `part_size` is the u32 at offset 0,
the name length is the u32 at offset 22, and the cursor is left at
`26 + part_group_name_size`. -/
theorem parseHeader_spec {b : List Nat} {hdr : Header} {off : Nat}
    (h : parseHeader b = some (hdr, off)) :
    readU32 b 0 = some hdr.part_size ∧
      readU32 b 22 = some hdr.part_group_name_size ∧
      off = 26 + hdr.part_group_name_size := by
  simp only [parseHeader, bind, Option.bind_eq_some] at h
  obtain ⟨ps, hps, h⟩ := h
  obtain ⟨x, hx, h⟩ := h
  obtain ⟨y, hy, h⟩ := h
  obtain ⟨rot, hrot, h⟩ := h
  obtain ⟨vis, hvis, h⟩ := h
  obtain ⟨ns, hns, h⟩ := h
  obtain ⟨name, hname, h⟩ := h
  simp only [pure, Option.some.injEq, Prod.mk.injEq] at h
  obtain ⟨hhdr, hoff⟩ := h
  subst hhdr
  subst hoff
  exact ⟨hps, hns, rfl⟩

/-- The sub-block loop returns at once when the cursor is at or past the end
of the working buffer. -/
theorem subLoopF_stop {b : List Nat} {cur : Option Nat} {fuel off : Nat}
    {acc : List SubBlock} (h : b.length ≤ off) :
    subLoopF b cur fuel off acc = some (some acc) := by
  rw [subLoopF.eq_def]
  simp [Nat.not_lt.mpr h]

/-- C6: the sub-block phase of `parse` decodes only bytes below
`4 + part_size` of the payload: two payloads that agree on their first
`4 + part_size` bytes (where `part_size` is the u32 at offset 0) yield
identical sub-block sequences whenever both parses return normally - the
working buffer is truncated to `payload.slice(0, 4 + part_size)` before the
loop, and the loop's starting cursor depends only on bytes below 26, which
either lie inside the truncated region or push the start past its end. -/
theorem claim6_subblocks_confined (fuel : Nat) (cur : Option Nat)
    (b d : List Nat) (ps : Nat)
    (hps : readU32 b 0 = some ps)
    (htake : b.take (4 + ps) = d.take (4 + ps))
    (rb rd : Result)
    (hb : PartDataParser.parse fuel b cur = some (some rb))
    (hd : PartDataParser.parse fuel d cur = some (some rd)) :
    rb.sub_blocks = rd.sub_blocks := by
  unfold PartDataParser.parse at hb hd
  split at hb
  · simp at hb
  · rename_i hdrb ob hhb
    dsimp only at hb
    split at hb
    · simp at hb
    · simp at hb
    · rename_i sbsb hlb
      simp only [Option.some.injEq] at hb
      subst hb
      split at hd
      · simp at hd
      · rename_i hdrd od hhd
        dsimp only at hd
        split at hd
        · simp at hd
        · simp at hd
        · rename_i sbsd hld
          simp only [Option.some.injEq] at hd
          subst hd
          obtain ⟨hpsb, hnsb, hob⟩ := parseHeader_spec hhb
          obtain ⟨hpsd, hnsd, hod⟩ := parseHeader_spec hhd
          have hps4 : 4 ≤ 4 + ps := by omega
          have hpsb' : hdrb.part_size = ps := by
            rw [hps] at hpsb
            exact (Option.some.inj hpsb).symm
          have hpsd' : hdrd.part_size = ps := by
            have h40 : readU32 b 0 = readU32 d 0 := readU32_eq_of_take_eq htake hps4
            rw [← h40, hps] at hpsd
            exact (Option.some.inj hpsd).symm
          rw [hpsb', htake] at hlb
          rw [hpsd'] at hld
          by_cases h26 : 26 ≤ 4 + ps
          · have hns : readU32 b 22 = readU32 d 22 :=
              readU32_eq_of_take_eq htake (by omega)
            have hnseq : hdrb.part_group_name_size = hdrd.part_group_name_size := by
              rw [hns] at hnsb
              rw [hnsb] at hnsd
              exact Option.some.inj hnsd
            rw [hob, hnseq, ← hod] at hlb
            rw [hlb] at hld
            simpa using hld
          · have hlenT : (d.take (4 + ps)).length ≤ 4 + ps := by
              simp [List.length_take]
            have hsb : subLoopF (d.take (4 + ps)) cur fuel ob [] = some (some []) :=
              subLoopF_stop (by omega)
            have hsd : subLoopF (d.take (4 + ps)) cur fuel od [] = some (some []) :=
              subLoopF_stop (by omega)
            rw [hlb] at hsb
            rw [hld] at hsd
            simp only [Option.some.injEq] at hsb hsd
            rw [hsb, hsd]

/-- C6 witness: two payloads extending `payP` (part_size 100, trimmed length
104) with different trailing junk decode the same sub-block sequence. -/
theorem claim6_witness :
    (readU32 (payP ++ [5]) 0 = some 100 ∧
      (payP ++ [5]).take (4 + 100) = (payP ++ [7, 7]).take (4 + 100) ∧
      PartDataParser.parse 120 (payP ++ [5]) none =
        some (some ⟨hdrP, [SubBlock.sub09 60 []]⟩) ∧
      PartDataParser.parse 120 (payP ++ [7, 7]) none =
        some (some ⟨hdrP, [SubBlock.sub09 60 []]⟩)) ∧
    (Result.mk hdrP [SubBlock.sub09 60 []]).sub_blocks =
      (Result.mk hdrP [SubBlock.sub09 60 []]).sub_blocks :=
  ⟨⟨by decide, by decide, by decide, by decide⟩,
    claim6_subblocks_confined 120 none (payP ++ [5]) (payP ++ [7, 7]) 100
      (by decide) (by decide) ⟨hdrP, [SubBlock.sub09 60 []]⟩
      ⟨hdrP, [SubBlock.sub09 60 []]⟩ (by decide) (by decide)⟩

end PartDataParser

namespace PCB

/-- Shift a byte read across a prefix. -/
theorem readU8_append_ge (pre rest : List Nat) (i : Nat) (h : pre.length ≤ i) :
    readU8 (pre ++ rest) i = readU8 rest (i - pre.length) := by
  unfold readU8
  exact List.getElem?_append_right h

/-- Shift a u32 read across a prefix. -/
theorem readU32_append_ge (pre rest : List Nat) (i : Nat) (h : pre.length ≤ i) :
    readU32 (pre ++ rest) i = readU32 rest (i - pre.length) := by
  unfold readU32
  have e1 : i + 1 - pre.length = i - pre.length + 1 := by omega
  have e2 : i + 2 - pre.length = i - pre.length + 2 := by omega
  have e3 : i + 3 - pre.length = i - pre.length + 3 := by omega
  rw [List.getElem?_append_right h, List.getElem?_append_right (by omega),
    List.getElem?_append_right (by omega), List.getElem?_append_right (by omega),
    e1, e2, e3]

/-- Decoding an encoded u32 returns the value. -/
theorem readU32_u32le (n : Nat) (rest : List Nat) (h : n < 4294967296) :
    readU32 (u32le n ++ rest) 0 = some n := by
  simp only [u32le, List.cons_append, List.nil_append, readU32,
    List.getElem?_cons_zero, List.getElem?_cons_succ]
  congr 1
  omega

/-- A u32 read at a tag byte followed by an encoded size. -/
theorem readU32_cons_u32le (t n : Nat) (rest : List Nat) :
    readU32 (t :: (u32le n ++ rest)) 0 =
      some (t + 256 * (n % 256) + 65536 * (n / 256 % 256) +
        16777216 * (n / 65536 % 256)) := by
  simp [readU32, u32le]

end PCB

namespace PCBInputs

open PCB RawPCBParser

/-- Every byte of `mkHeader` below 0x40 is zero. -/
theorem mkHeader_byte (ms : Nat) (r : List Nat) (j : Nat) (h : j < 0x40) :
    (mkHeader ms ++ r)[j]? = some 0 := by
  unfold mkHeader
  rw [List.append_assoc, List.getElem?_append_left (by simpa using h)]
  rw [List.getElem?_replicate]
  simp [h]

/-- The header prefix is 0x44 bytes long. -/
theorem mkHeader_length (ms : Nat) : (mkHeader ms).length = 0x44 := by
  simp [mkHeader, u32le]

/-- A u32 read inside the zero region of `mkHeader`. -/
theorem readU32_mkHeader_zeros (ms : Nat) (r : List Nat) (i : Nat) (h : i + 4 ≤ 0x40) :
    readU32 (mkHeader ms ++ r) i = some 0 := by
  unfold readU32
  rw [mkHeader_byte ms r i (by omega), mkHeader_byte ms r (i+1) (by omega),
    mkHeader_byte ms r (i+2) (by omega), mkHeader_byte ms r (i+3) (by omega)]

/-- The key byte at 0x10 of a `mkHeader` buffer is zero, so the XOR phase is
the identity. -/
theorem xorPhase_mkHeader (ms : Nat) (r : List Nat) :
    xorPhase (mkHeader ms ++ r) = some (mkHeader ms ++ r) := by
  have h16 : readU8 (mkHeader ms ++ r) 0x10 = some 0 := mkHeader_byte ms r 0x10 (by omega)
  unfold xorPhase
  rw [h16]
  simp

/-- The file header of a `mkHeader` buffer reads back `mainDataBlocksSize`. -/
theorem parseFileHeader_mkHeader (ms : Nat) (r : List Nat) (h : ms < 4294967296) :
    parseFileHeader (mkHeader ms ++ r) = some ms := by
  have h20 := readU32_mkHeader_zeros ms r 0x20 (by omega)
  have h24 := readU32_mkHeader_zeros ms r 0x24 (by omega)
  have h28 := readU32_mkHeader_zeros ms r 0x28 (by omega)
  have h40 : readU32 (mkHeader ms ++ r) 0x40 = some ms := by
    unfold mkHeader
    rw [List.append_assoc,
      readU32_append_ge (List.replicate 0x40 0) (u32le ms ++ r) 0x40 (by simp)]
    simpa using readU32_u32le ms r h
  simp [parseFileHeader, bind, h20, h24, h28, h40]

end PCBInputs

namespace RawPCBParser

open PCB PCBInputs

/-- The scan loop stops as soon as the cursor reaches the end offset. -/
theorem mainLoopF_stop (des : List Nat → Option (List Nat)) (b : List Nat)
    (endOff fuel off : Nat) (blocks : List TLBlock) (h : endOff ≤ off) :
    mainLoopF des b endOff fuel off blocks = some (some blocks) := by
  rw [mainLoopF.eq_def]
  have hng : ¬(off < endOff ∧ off < b.length) := by omega
  rw [if_neg hng]

/-- One scan iteration over a tag-0x03 block: the placeholder is pushed and
the cursor skips the declared size. -/
theorem mainLoopF_step03 (des : List Nat → Option (List Nat)) (b : List Nat)
    (endOff fuel off : Nat) (blocks : List TLBlock) (pc bs : Nat)
    (hg1 : off < endOff) (hg2 : off < b.length)
    (hpc : readU32 b off = some pc) (hpcne : pc ≠ 0)
    (htag : readU8 b off = some 3)
    (hbs : readU32 b (off + 1) = some bs) :
    mainLoopF des b endOff (fuel + 1) off blocks =
      mainLoopF des b endOff fuel (off + 1 + 4 + bs)
        (blocks ++ [TLBlock.placeholder]) := by
  conv_lhs => rw [mainLoopF.eq_def]
  rw [if_pos ⟨hg1, hg2⟩]
  simp [hpc, hpcne, htag, parseType03, bind, hbs]

/-- One scan iteration over a tag-0x09 block. -/
theorem mainLoopF_step09 (des : List Nat → Option (List Nat)) (b : List Nat)
    (endOff fuel off : Nat) (blocks : List TLBlock) (pc bs : Nat)
    (hg1 : off < endOff) (hg2 : off < b.length)
    (hpc : readU32 b off = some pc) (hpcne : pc ≠ 0)
    (htag : readU8 b off = some 9)
    (hbs : readU32 b (off + 1) = some bs) :
    mainLoopF des b endOff (fuel + 1) off blocks =
      mainLoopF des b endOff fuel (off + 1 + 4 + bs)
        (blocks ++ [TLBlock.placeholder]) := by
  conv_lhs => rw [mainLoopF.eq_def]
  rw [if_pos ⟨hg1, hg2⟩]
  simp [hpc, hpcne, htag, parseType09, bind, hbs]

end RawPCBParser

namespace PCB

/-- Reading a u32 one past a cons head. -/
theorem readU32_cons_succ (t : Nat) (l : List Nat) (i : Nat) :
    readU32 (t :: l) (i + 1) = readU32 l i := by
  simp [readU32]

end PCB

namespace RawPCBParser

open PCB PCBInputs

/-- The three reads the scan performs at the start of an encoded block
`t :: u32le bsv ++ pv` sitting at offset `pre.length`: the padding-check u32
(whose low byte is the tag), the tag byte, and the size field. -/
theorem scan_reads_at (pre : List Nat) (t bsv : Nat) (pv rest : List Nat)
    (hbs : bsv < 4294967296) :
    readU32 (pre ++ (t :: (u32le bsv ++ (pv ++ rest)))) pre.length =
      some (t + 256 * (bsv % 256) + 65536 * (bsv / 256 % 256) +
        16777216 * (bsv / 65536 % 256)) ∧
    readU8 (pre ++ (t :: (u32le bsv ++ (pv ++ rest)))) pre.length = some t ∧
    readU32 (pre ++ (t :: (u32le bsv ++ (pv ++ rest)))) (pre.length + 1) = some bsv := by
  refine ⟨?_, ?_, ?_⟩
  · rw [readU32_append_ge pre _ pre.length (Nat.le_refl _), Nat.sub_self]
    exact readU32_cons_u32le t bsv (pv ++ rest)
  · rw [readU8_append_ge pre _ pre.length (Nat.le_refl _), Nat.sub_self]
    rfl
  · rw [readU32_append_ge pre _ (pre.length + 1) (by omega)]
    have e : pre.length + 1 - pre.length = 0 + 1 := by omega
    rw [e, readU32_cons_succ]
    exact readU32_u32le bsv (pv ++ rest) hbs

/-- C4 as amended: for every pair of tag-0x03 and tag-0x09 blocks (any sizes,
any payloads) behind a well-formed header, the scan output is exactly the two
empty placeholders, in file order: the placeholders returned by the 0x03 and
0x09 handlers ARE appended to `main_data_block` (the empty object is truthy),
while neither block kind ever contributes an ARC/VIA/SEGMENT/TEXT/DATA
entry. -/
theorem claim4_amended (bs1 bs2 : Nat) (p1 p2 : List Nat) (fuel : Nat)
    (des : List Nat → Option (List Nat))
    (h1 : p1.length = bs1) (h2 : p2.length = bs2)
    (hb1 : bs1 < 4294967296) (hb2 : bs2 < 4294967296)
    (hms : 10 + bs1 + bs2 < 4294967296)
    (hfuel : 2 ≤ fuel) :
    RawPCBParser.parse fuel des (c4buf bs1 bs2 p1 p2) =
      some (some ⟨[TLBlock.placeholder, TLBlock.placeholder]⟩) := by
  obtain ⟨f, rfl⟩ : ∃ f, fuel = f + 2 := ⟨fuel - 2, by omega⟩
  have hrest : c4buf bs1 bs2 p1 p2 =
      mkHeader (10 + bs1 + bs2) ++ (blk03 bs1 p1 ++ blk09 bs2 p2) := rfl
  have hpre1 : (mkHeader (10 + bs1 + bs2)).length = 0x44 := mkHeader_length _
  have hlen03 : (blk03 bs1 p1).length = 5 + bs1 := by
    simp [blk03, u32le, h1]
    omega
  have hlen09 : (blk09 bs2 p2).length = 5 + bs2 := by
    simp [blk09, u32le, h2]
    omega
  have hlenB : (c4buf bs1 bs2 p1 p2).length = 0x44 + (10 + bs1 + bs2) := by
    rw [hrest]
    simp [List.length_append, hpre1, hlen03, hlen09]
    omega
  have hx : xorPhase (c4buf bs1 bs2 p1 p2) = some (c4buf bs1 bs2 p1 p2) := by
    rw [hrest]
    exact xorPhase_mkHeader _ _
  have hfh : parseFileHeader (c4buf bs1 bs2 p1 p2) = some (10 + bs1 + bs2) := by
    rw [hrest]
    exact parseFileHeader_mkHeader _ _ (by omega)
  -- iteration 1 reads, at offset 0x44
  have hsh1 : c4buf bs1 bs2 p1 p2 =
      mkHeader (10 + bs1 + bs2) ++ (3 :: (u32le bs1 ++ (p1 ++ blk09 bs2 p2))) := by
    rw [hrest]
    simp [blk03, List.cons_append, List.append_assoc]
  obtain ⟨hpc1, htag1, hbs1r⟩ :=
    scan_reads_at (mkHeader (10 + bs1 + bs2)) 3 bs1 p1 (blk09 bs2 p2) hb1
  rw [hpre1] at hpc1 htag1 hbs1r
  rw [← hsh1] at hpc1 htag1 hbs1r
  -- iteration 2 reads, at offset 0x49 + bs1
  have hsh2 : c4buf bs1 bs2 p1 p2 =
      (mkHeader (10 + bs1 + bs2) ++ blk03 bs1 p1) ++
        (9 :: (u32le bs2 ++ (p2 ++ []))) := by
    rw [hrest]
    simp [blk09, List.cons_append, List.append_assoc]
  have hpre2 : (mkHeader (10 + bs1 + bs2) ++ blk03 bs1 p1).length = 0x49 + bs1 := by
    simp [List.length_append, hpre1, hlen03]
    omega
  obtain ⟨hpc2, htag2, hbs2r⟩ :=
    scan_reads_at (mkHeader (10 + bs1 + bs2) ++ blk03 bs1 p1) 9 bs2 p2 [] hb2
  rw [hpre2] at hpc2 htag2 hbs2r
  rw [← hsh2] at hpc2 htag2 hbs2r
  -- the two scan iterations and the stop
  have hstep1 := mainLoopF_step03 des (c4buf bs1 bs2 p1 p2)
    (0x44 + (10 + bs1 + bs2)) (f + 1) 0x44 [] _ bs1
    (by omega) (by omega) hpc1 (by omega) htag1 hbs1r
  have hstep2 := mainLoopF_step09 des (c4buf bs1 bs2 p1 p2)
    (0x44 + (10 + bs1 + bs2)) f (0x44 + 1 + 4 + bs1) [TLBlock.placeholder] _ bs2
    (by omega) (by omega)
    (by rw [show 0x44 + 1 + 4 + bs1 = 0x49 + bs1 from by omega]; exact hpc2)
    (by omega)
    (by rw [show 0x44 + 1 + 4 + bs1 = 0x49 + bs1 from by omega]; exact htag2)
    (by rw [show 0x44 + 1 + 4 + bs1 + 1 = 0x49 + bs1 + 1 from by omega]; exact hbs2r)
  have hloop : mainLoopF des (c4buf bs1 bs2 p1 p2) (0x44 + (10 + bs1 + bs2))
      (f + 2) 0x44 [] = some (some [TLBlock.placeholder, TLBlock.placeholder]) := by
    have e2 : (f + 2) = (f + 1) + 1 := rfl
    rw [e2, hstep1]
    simp only [List.nil_append]
    rw [hstep2]
    simp only [List.singleton_append]
    exact mainLoopF_stop des _ _ _ _ _ (by omega)
  simp [RawPCBParser.parse, parseMainDataBlocks, hx, hfh, hloop]

/-- C4 amended witness: the family theorem at concrete sizes and payloads. -/
theorem claim4_amended_witness :
    (([9, 9, 9, 9] : List Nat).length = 4 ∧ ([] : List Nat).length = 0 ∧
      (4 : Nat) < 4294967296 ∧ (0 : Nat) < 4294967296 ∧
      (10 + 4 + 0 : Nat) < 4294967296 ∧ (2 : Nat) ≤ 2) ∧
    RawPCBParser.parse 2 PCBInputs.desFail (c4buf 4 0 [9, 9, 9, 9] []) =
      some (some ⟨[TLBlock.placeholder, TLBlock.placeholder]⟩) :=
  ⟨⟨by decide, by decide, by decide, by decide, by decide, by decide⟩,
    claim4_amended 4 0 [9, 9, 9, 9] [] 2 PCBInputs.desFail (by decide) (by decide)
      (by decide) (by decide) (by decide) (by decide)⟩

end RawPCBParser
